import Mathlib

/-!
Verification of the conversation-to-wire protocol engine of a browser chat
client (geminiService / mcpService / App session logic).

The definitions below are a shallow embedding of the TypeScript source:
  * `formatHistory`, `formatTools`, the streaming chunk consumer and the
    bounded tool-orchestration loop of `streamChatResponse` (geminiService);
  * `connectToServer` / `executeToolCall` of the MCP client (mcpService);
  * `updateSessionMessages` title derivation (App).
JavaScript truthiness on strings is modelled by comparison with `""`,
absent optional fields by `Option`/`[]`, thrown exceptions by `Except`,
and the network by oracle parameters (fetch outcomes, a model oracle
mapping request contents to a chunk stream, a tool-execution oracle).
-/

namespace ChatClone

/-- A JSON-ish value universe for tool arguments, results and schemas.
`undef` stands for the JavaScript `undefined`. -/
inductive Json where
  | str : String → Json
  | num : Int → Json
  | bool : Bool → Json
  | null : Json
  | undef : Json
  | arr : List Json → Json
  | obj : List (String × Json) → Json

/-- Message roles (types.ts `Role`). -/
inductive Role where
  | user : Role
  | model : Role
deriving DecidableEq

/-- types.ts `Attachment`: name, MIME type, base64 payload. -/
structure Attachment where
  name : String
  mimeType : String
  data : String

/-- One recorded tool call on a message (types.ts `Message.toolCalls` entry). -/
structure ToolCallRec where
  name : String
  args : Json

/-- One recorded tool result on a message (types.ts `Message.toolResults` entry). -/
structure ToolResultRec where
  name : String
  result : Json

/-- types.ts `Message`. Optional arrays (`attachments`, `toolCalls`,
`toolResults`) are modelled as lists, with `[]` for absent — the source only
ever iterates them under a `length > 0` guard, so the two are
indistinguishable. -/
structure Message where
  id : String
  role : Role
  text : String
  attachments : List Attachment
  timestamp : Nat
  isError : Bool
  toolCalls : List ToolCallRec
  toolResults : List ToolResultRec

/-- A wire part (the tagged union used in Gemini `Content.parts`). -/
inductive Part where
  | text : String → Part
  | inlineData : (mimeType : String) → (data : String) → Part
  | functionCall : (name : String) → (args : Json) → Part
  | functionResponse : (name : String) → (response : Json) → Part

/-- A wire turn (Gemini `Content`): role plus parts. -/
structure Content where
  role : Role
  parts : List Part

/-- geminiService `formatHistory`, message loop body: the parts built for one
history message — attachment inline-data parts, then the text part (only when
the text is non-empty, mirroring JS truthiness of `msg.text`), then one
function-call part per recorded tool call, then one function-response part per
recorded tool result, the raw result wrapped under a `result` key. -/
def msgParts (msg : Message) : List Part :=
  (msg.attachments.map fun att => Part.inlineData att.mimeType att.data)
    ++ (if msg.text = "" then [] else [Part.text msg.text])
    ++ (msg.toolCalls.map fun tc => Part.functionCall tc.name tc.args)
    ++ (msg.toolResults.map fun tr =>
          Part.functionResponse tr.name (Json.obj [("result", tr.result)]))

/-- geminiService `formatHistory`, RAG block: the parts of the synthetic
leading user turn — an introductory text part, then per context file an
inline-data part followed by a `[File: <name>]` label part. -/
def contextParts (contextFiles : List Attachment) : List Part :=
  Part.text "Here are the documents/context I want you to use for this conversation:"
    :: contextFiles.foldr
        (fun file acc =>
          Part.inlineData file.mimeType file.data
            :: Part.text ("\n[File: " ++ file.name ++ "]\n") :: acc)
        []

/-- geminiService `formatHistory`: the context-injection pair (when context
files exist) followed by one turn per history message whose part list is
non-empty; messages yielding zero parts are skipped. -/
def formatHistory (messages : List Message) (contextFiles : List Attachment) :
    List Content :=
  (match contextFiles with
   | [] => []
   | _ =>
    [⟨Role.user, contextParts contextFiles⟩,
     ⟨Role.model, [Part.text "Understood. I have processed the provided documents."]⟩])
    ++ messages.filterMap fun msg =>
        match msgParts msg with
        | [] => none
        | p :: ps =>
          some ⟨if msg.role = Role.user then Role.user else Role.model, p :: ps⟩

/-! ## MCP client (mcpService.ts)

The network is modelled by a `FetchOutcome` oracle describing what one
`fetch` + `response.json()` round did: the fetch itself threw, or an HTTP
response with a status arrived whose body either failed to parse as JSON or
parsed into a JSON-RPC envelope. -/

/-- A JSON-RPC error object (`{code, message}`). -/
structure RPCError where
  code : Int
  message : String

/-- The decoded JSON-RPC envelope for `tools/call`: an optional (truthy)
`error` field and the `result` value, `Json.undef` when absent. -/
structure CallEnvelope where
  error : Option RPCError
  result : Json

/-- The body behaviour of one HTTP response: `response.json()` threw, or it
produced an envelope. -/
inductive BodyOutcome (ε : Type) where
  | parseThrow : String → BodyOutcome ε
  | parsed : ε → BodyOutcome ε

/-- The outcome of one `fetch`: the promise rejected (network failure, with
the error's message), or a response with an HTTP status arrived. -/
inductive FetchOutcome (ε : Type) where
  | thrown : String → FetchOutcome ε
  | response : Nat → BodyOutcome ε → FetchOutcome ε

/-- `response.ok`: status in the 2xx range [200, 300). -/
def isOk (status : Nat) : Bool := 200 ≤ status && status < 300

/-- The JavaScript `error.message || "Unknown error executing tool"` fallback:
an empty message is falsy and is replaced by the default. -/
def jsMessage (m : String) : String :=
  if m = "" then "Unknown error executing tool" else m

/-- The `{error: <message>}` value mcpService builds. -/
def errVal (m : String) : Json := Json.obj [("error", Json.str m)]

/-- mcpService `executeToolCall`, body of the `try` block: non-2xx status
returns `{error: "HTTP <status> Error"}`; a parse failure throws; an envelope
with a truthy `error` returns `{error: <its message>}`; otherwise the
envelope's `result` is returned. Thrown failures propagate as `.error`. -/
def executeToolCallTry (outcome : FetchOutcome CallEnvelope) :
    Except String Json :=
  match outcome with
  | .thrown m => .error m
  | .response status body =>
    if isOk status = false then
      .ok (errVal ("HTTP " ++ toString status ++ " Error"))
    else
      match body with
      | .parseThrow m => .error m
      | .parsed data =>
        match data.error with
        | some e => .ok (errVal e.message)
        | none => .ok data.result

/-- mcpService `executeToolCall`: the `try` body with the `catch` clause that
converts any thrown failure into `{error: error.message || "Unknown error
executing tool"}`. Total — it never throws. -/
def executeToolCall (outcome : FetchOutcome CallEnvelope) : Json :=
  match executeToolCallTry outcome with
  | .ok v => v
  | .error m => errVal (jsMessage m)

/-- types.ts `MCPTool`: a capability advertised by an MCP server. The
optional description is `Option`; `inputSchema` is an arbitrary JSON
schema. -/
structure MCPTool where
  name : String
  description : Option String
  inputSchema : Json

/-- The `result` object of a `tools/list` envelope; `tools` is `none` when
the field is absent (or otherwise falsy). -/
structure ListResult where
  tools : Option (List MCPTool)

/-- The decoded JSON-RPC envelope for `tools/list`: optional truthy `error`
field, and the `result` object, `none` when absent. -/
structure ListEnvelope where
  error : Option RPCError
  result : Option ListResult

/-- mcpService `connectToServer`: non-2xx throws `HTTP error! status:
<status>`; an envelope error throws its message; otherwise
`data.result.tools || []` is returned — where an absent `result` makes the
`.tools` access itself throw a TypeError (rethrown by the catch). -/
def connectToServer (outcome : FetchOutcome ListEnvelope) :
    Except String (List MCPTool) :=
  match outcome with
  | .thrown m => .error m
  | .response status body =>
    if isOk status = false then
      .error ("HTTP error! status: " ++ toString status)
    else
      match body with
      | .parseThrow m => .error m
      | .parsed data =>
        match data.error with
        | some e => .error e.message
        | none =>
          match data.result with
          | none =>
            .error "TypeError: Cannot read properties of undefined (reading tools)"
          | some r => .ok (r.tools.getD [])

/-! ## Stream consumption (geminiService `streamChatResponse`, inner
`for await` loop)

A chunk carries `chunk.text` (the empty string modelling an absent/falsy
text) and the function-call parts found in `chunk.candidates[0].content.parts`.
The accumulating `Map<string, FunctionCall>` is modelled as an association
list with JavaScript `Map.set` semantics: replacing an existing key keeps its
position, a new key is appended. -/

/-- A streamed function call fragment (`{name, args}`). -/
structure FunctionCall where
  name : String
  args : Json

/-- One stream chunk: its text (`""` for absent) and the function-call
fragments carried by its first candidate's parts. -/
structure Chunk where
  text : String
  functionCalls : List FunctionCall

/-- JavaScript `Map.set` on an insertion-ordered association list: replace in
place when the key exists, append otherwise. -/
def mapSet (m : List (String × FunctionCall)) (k : String) (v : FunctionCall) :
    List (String × FunctionCall) :=
  match m with
  | [] => [(k, v)]
  | (k₀, v₀) :: rest =>
    if k₀ = k then (k, v) :: rest else (k₀, v₀) :: mapSet rest k v

/-- The mutable state of the `for await` loop: accumulated text, the
name-keyed function-call map, the `hasToolCalls` flag, and the list of
`onChunk` emissions so far (oldest first). -/
structure StreamState where
  bufferText : String
  toolCallsMap : List (String × FunctionCall)
  hasToolCalls : Bool
  emissions : List String

/-- The initial stream state. -/
def initStream : StreamState := ⟨"", [], false, []⟩

/-- The function-call half of one loop iteration: every function-call part is
`Map.set` into the map and raises the `hasToolCalls` flag. -/
def insState (st : StreamState) (fcs : List FunctionCall) : StreamState :=
  fcs.foldl
    (fun s fc =>
      { s with toolCallsMap := mapSet s.toolCallsMap fc.name fc,
               hasToolCalls := true })
    st

/-- One iteration of the `for await` loop: non-empty text is appended to the
buffer and `onChunk` fires with the full buffer; then the chunk's
function-call parts are folded into the map. -/
def processChunk (st : StreamState) (c : Chunk) : StreamState :=
  insState
    (if c.text = "" then st
     else
      { st with
        bufferText := st.bufferText ++ c.text,
        emissions := st.emissions ++ [st.bufferText ++ c.text] })
    c.functionCalls

/-- Consuming a whole chunk stream from the initial state. -/
def runStream (chunks : List Chunk) : StreamState :=
  chunks.foldl processChunk initStream

/-- All function-call fragments of a stream, in emission order. -/
def emittedCalls (chunks : List Chunk) : List FunctionCall :=
  chunks.foldr (fun c acc => c.functionCalls ++ acc) []

/-- The last fragment named `n` in a fragment list, if any. -/
def lastNamed (n : String) : List FunctionCall → Option FunctionCall
  | [] => none
  | fc :: rest =>
    match lastNamed n rest with
    | some v => some v
    | none => if fc.name = n then some fc else none

/-- The concatenation of all chunk texts of a stream. -/
def textConcat : List Chunk → String
  | [] => ""
  | c :: rest => c.text ++ textConcat rest

/-- The sequence of `onChunk` text emissions a stream produces starting from
accumulated text `acc`: one emission of the full accumulated text per chunk
carrying non-empty text. -/
def textAccum : List Chunk → String → List String
  | [], _ => []
  | c :: rest, acc =>
    if c.text = "" then textAccum rest acc
    else (acc ++ c.text) :: textAccum rest (acc ++ c.text)

/-! ## Tool declarations (geminiService `formatTools`) -/

/-- Connection status of an MCP server (types.ts `MCPServer.status`). -/
inductive ServerStatus where
  | connected : ServerStatus
  | error : ServerStatus
  | disconnected : ServerStatus
deriving DecidableEq

/-- types.ts `MCPServer`. -/
structure MCPServer where
  id : String
  url : String
  name : String
  status : ServerStatus
  tools : List MCPTool

/-- A Gemini function declaration (`{name, description, parameters}`). -/
structure FunctionDeclaration where
  name : String
  description : String
  parameters : Json

/-- The declaration geminiService builds for one tool of one server:
`description: tool.description || "Tool from <server name>"` — the JS `||`
falls back both when the description is absent and when it is the empty
string. -/
def declOf (server : MCPServer) (tool : MCPTool) : FunctionDeclaration :=
  { name := tool.name,
    description :=
      match tool.description with
      | some d => if d = "" then "Tool from " ++ server.name else d
      | none => "Tool from " ++ server.name,
    parameters := tool.inputSchema }

/-- geminiService `formatTools`, accumulation loop: the function
declarations pushed for the servers in `connected` status, in server order
then tool order; servers in other states contribute nothing. -/
def connectedDecls (servers : List MCPServer) : List FunctionDeclaration :=
  servers.foldr
    (fun s acc =>
      (if s.status = ServerStatus.connected then s.tools.map (declOf s) else [])
        ++ acc)
    []

/-- geminiService `formatTools`: an empty declaration list yields `[]`,
otherwise one `Tool` wrapping all declarations. -/
def formatTools (servers : List MCPServer) : List (List FunctionDeclaration) :=
  match connectedDecls servers with
  | [] => []
  | fds => [fds]

/-- The `tools` field of the inference request config
(`tools.length > 0 ? tools : undefined` in `streamChatResponse`): `none`
models `undefined`. -/
def toolsConfig (servers : List MCPServer) : Option (List (List FunctionDeclaration)) :=
  match formatTools servers with
  | [] => none
  | ts => some ts

/-- The flattening of every listed server's tool declarations, status
ignored (used to state that only connected servers contribute). -/
def flatDecls (servers : List MCPServer) : List FunctionDeclaration :=
  servers.foldr (fun s acc => s.tools.map (declOf s) ++ acc) []

/-! ## Tool dispatch and the orchestration loop (geminiService
`streamChatResponse`, outer `for` loop) -/

/-- A record of one network tool execution performed through
`executeToolCall`: target server url, tool name, arguments. -/
structure NetCall where
  url : String
  toolName : String
  args : Json

/-- The dispatch lookup of the loop:
`mcpServers.find(s => s.tools.some(t => t.name === toolName))` — the first
server in the list, regardless of status, whose tool list contains the
name. -/
def dispatchServer (servers : List MCPServer) (toolName : String) :
    Option MCPServer :=
  servers.find? fun s => s.tools.any fun t => t.name == toolName

/-- Resolution of one pending call: if a server is found the tool executes
there over the network (`execTool` is the oracle for `executeToolCall`'s
outcome) and the call is recorded; otherwise the loop synthesizes
`{error: "Tool <name> not found in connected servers."}` with no network
call. -/
def resolveToolCall (servers : List MCPServer)
    (execTool : String → String → Json → Json) (call : FunctionCall) :
    Json × List NetCall :=
  match dispatchServer servers call.name with
  | some server =>
    (execTool server.url call.name call.args,
     [⟨server.url, call.name, call.args⟩])
  | none =>
    (errVal ("Tool " ++ call.name ++ " not found in connected servers."), [])

/-- Sequential execution of the pending calls of one turn: each yields a
function-response part wrapping its result under a `result` key, and the
performed network calls are concatenated in order. -/
def executeCalls (servers : List MCPServer)
    (execTool : String → String → Json → Json) :
    List FunctionCall → List Part × List NetCall
  | [] => ([], [])
  | c :: rest =>
    let r := resolveToolCall servers execTool c
    let tail := executeCalls servers execTool rest
    (Part.functionResponse c.name (Json.obj [("result", r.1)]) :: tail.1,
     r.2 ++ tail.2)

/-- The observable outcome of `streamChatResponse`: the returned text or the
propagated thrown error, the number of inference calls issued, and the
network tool calls performed. -/
structure LoopResult where
  result : Except String String
  inferenceCalls : Nat
  netCalls : List NetCall

/-- The tool-calling loop of `streamChatResponse` with remaining budget `n`
(the source runs `for (let turn = 0; turn < 5; turn++)`, entered with
`n = 5`): one inference stream per iteration; a final-answer turn returns its
text; a tool-call turn appends the model turn and the function responses to
the history and recurses; an exhausted budget returns the last accumulated
text. `model` is the inference oracle mapping request contents to the chunk
stream it produces. -/
def loopIter (model : List Content → List Chunk) (servers : List MCPServer)
    (execTool : String → String → Json → Json) :
    Nat → List Content → String → LoopResult
  | 0, _, fullText => ⟨.ok fullText, 0, []⟩
  | n + 1, contents, _ =>
    let st := runStream (model contents)
    let fullText := st.bufferText
    if st.hasToolCalls = false then ⟨.ok fullText, 1, []⟩
    else
      let calls := st.toolCallsMap.map Prod.snd
      let modelParts :=
        (if fullText = "" then [] else [Part.text fullText])
          ++ calls.map fun fc => Part.functionCall fc.name fc.args
      let er := executeCalls servers execTool calls
      let newContents :=
        contents ++ [⟨Role.model, modelParts⟩, ⟨Role.user, er.1⟩]
      let tail := loopIter model servers execTool n newContents fullText
      ⟨tail.result, tail.inferenceCalls + 1, er.2 ++ tail.netCalls⟩

/-- The request contents of the next iteration after a tool-call turn:
current contents plus the model turn (text, then the function calls) and the
user turn carrying the function responses. -/
def nextContents (model : List Content → List Chunk)
    (servers : List MCPServer) (execTool : String → String → Json → Json)
    (contents : List Content) : List Content :=
  let st := runStream (model contents)
  let calls := st.toolCallsMap.map Prod.snd
  let modelParts :=
    (if st.bufferText = "" then [] else [Part.text st.bufferText])
      ++ calls.map fun fc => Part.functionCall fc.name fc.args
  let er := executeCalls servers execTool calls
  contents ++ [⟨Role.model, modelParts⟩, ⟨Role.user, er.1⟩]

/-- The API-key sources of `createClient`: the custom key from local storage
(`none` models `null`) and the environment key. -/
structure KeyEnv where
  customKey : Option String
  envKey : Option String

/-- JavaScript truthiness of an optional string: `null`/`undefined` and `""`
are falsy. -/
def truthyStr : Option String → Option String
  | none => none
  | some s => if s = "" then none else some s

/-- geminiService `createClient` key resolution:
`localStorage.getItem('gemini_api_key') || process.env.API_KEY`, `none` when
the result is falsy (which makes `createClient` throw). -/
def getApiKey (env : KeyEnv) : Option String :=
  match truthyStr env.customKey with
  | some s => some s
  | none => truthyStr env.envKey

/-- The message of the error `createClient` throws when no key is found. -/
def apiKeyMissingMsg : String :=
  "API Key is missing. Please add it in settings or provide it via environment variables."

/-- geminiService `streamChatResponse`: `createClient()` runs first and
throws when no API key resolves — before history formatting, any inference
call or any tool execution; otherwise the 5-iteration tool loop runs on the
formatted history. -/
def streamChatResponse (env : KeyEnv) (model : List Content → List Chunk)
    (servers : List MCPServer) (execTool : String → String → Json → Json)
    (messages : List Message) (contextFiles : List Attachment) : LoopResult :=
  match getApiKey env with
  | none => ⟨.error apiKeyMissingMsg, 0, []⟩
  | some _ =>
    loopIter model servers execTool 5 (formatHistory messages contextFiles) ""

/-! ## Chat sessions and title derivation (App.tsx `updateSessionMessages`) -/

/-- types.ts `ChatSession`. -/
structure ChatSession where
  id : String
  title : String
  messages : List Message
  createdAt : Nat
  updatedAt : Nat

/-- App.tsx `updateSessionMessages`, title block: the title is recomputed
only when the session's current message list is empty and the new list is
non-empty and its first message is a user message; then it is
`text.slice(0, 30) + (text.length > 30 ? '...' : '')`. -/
def deriveTitle (s : ChatSession) (newMessages : List Message) : String :=
  match s.messages, newMessages with
  | [], firstMsg :: _ =>
    if firstMsg.role = Role.user then
      firstMsg.text.take 30
        ++ (if firstMsg.text.length > 30 then "..." else "")
    else s.title
  | _, _ => s.title

/-- App.tsx `updateSessionMessages`, per-session update: replaces the message
list, applies the title rule, refreshes `updatedAt`. -/
def updateSessionMessages (now : Nat) (s : ChatSession)
    (newMessages : List Message) : ChatSession :=
  { s with
    messages := newMessages,
    title := deriveTitle s newMessages,
    updatedAt := now }

/-- App.tsx `updateSessionMessages`, list level: only the session with the
matching id is updated. -/
def updateSessions (sessions : List ChatSession) (sessionId : String)
    (newMessages : List Message) (now : Nat) : List ChatSession :=
  sessions.map fun s =>
    if s.id = sessionId then updateSessionMessages now s newMessages else s

/-! ## Concrete fixtures used by counterexamples and witnesses -/

/-- A user message whose text has 31 characters. -/
def msg31 : Message :=
  ⟨"m1", Role.user, "aaaaaaaaaaaaaaaaaaaaaaaaaaaaaaa", [], 0, false, [], []⟩

/-- A fresh session with no messages. -/
def emptySession : ChatSession := ⟨"s", "New Chat", [], 0, 0⟩

/-- A server stuck in `error` status that still advertises a tool `X`
(exactly what `handleRefreshServer` leaves behind when a refresh fails: the
status flips to `error` but `tools` is kept). -/
def errStatusServer : MCPServer :=
  ⟨"s1", "http://err.example", "err", ServerStatus.error,
   [⟨"X", none, Json.null⟩]⟩

/-- A model oracle that answers the first request (empty contents) with one
function call `X` and any later request with a plain final answer. -/
def modelOneCall : List Content → List Chunk :=
  fun contents =>
    if contents.length = 0 then [⟨"", [⟨"X", Json.null⟩]⟩]
    else [⟨"done", []⟩]

/-- A model oracle that returns a function call `X` on every request. -/
def modelAlwaysCall : List Content → List Chunk :=
  fun _ => [⟨"", [⟨"X", Json.null⟩]⟩]

/-- A tool-execution oracle returning a fixed marker value. -/
def execMark : String → String → Json → Json :=
  fun _ _ _ => Json.str "ran"

/-- A message whose text is the two-character string `hi`. -/
def msgHi : Message := ⟨"m2", Role.user, "hi", [], 0, false, [], []⟩

/-- A connected server advertising a tool `X`. -/
def serverA : MCPServer :=
  ⟨"a", "http://a.example", "a", ServerStatus.connected,
   [⟨"X", none, Json.null⟩]⟩

/-- A second connected server also advertising `X`. -/
def serverB : MCPServer :=
  ⟨"b", "http://b.example", "b", ServerStatus.connected,
   [⟨"X", none, Json.null⟩]⟩

/-! ## Theorems -/

theorem contextParts_ne_nil (contextFiles : List Attachment) :
    contextParts contextFiles ≠ [] := by
  simp [contextParts]

/-- C2: For every message history and every context-document set, the
conversation formatter's output contains no turn whose parts list is empty: a
history message that yields zero parts contributes no turn to the wire
request. -/
theorem formatHistory_no_empty_turn (messages : List Message)
    (contextFiles : List Attachment) :
    ∀ c ∈ formatHistory messages contextFiles, c.parts ≠ [] := by
  intro c hc
  unfold formatHistory at hc
  rw [List.mem_append] at hc
  rcases hc with hc | hc
  · cases contextFiles with
    | nil => simp at hc
    | cons f fs =>
      rcases List.mem_cons.mp hc with hc | hc
      · subst hc
        exact contextParts_ne_nil (f :: fs)
      · have h1 := List.mem_singleton.mp hc
        subst h1
        simp
  · rw [List.mem_filterMap] at hc
    obtain ⟨msg, _, hmk⟩ := hc
    cases hmp : msgParts msg with
    | nil => rw [hmp] at hmk; cases hmk
    | cons p ps =>
      rw [hmp] at hmk
      cases hmk
      simp

theorem formatHistory_no_empty_turn_witness :
    (Content.mk Role.model
      [Part.text "Understood. I have processed the provided documents."]).parts ≠ [] :=
  formatHistory_no_empty_turn [] [⟨"doc.txt", "text/plain", "QQ=="⟩] _ (by
    simp [formatHistory, contextParts])

/-- The history-message count of the formatter output: exactly the messages
with a non-empty part list contribute turns, plus the two context turns when
context files exist. -/
theorem formatHistory_length (messages : List Message)
    (contextFiles : List Attachment) :
    (formatHistory messages contextFiles).length
      = (match contextFiles with | [] => 0 | _ => 2)
        + (messages.filter fun msg => !(msgParts msg).isEmpty).length := by
  unfold formatHistory
  rw [List.length_append]
  congr 1
  · cases contextFiles <;> rfl
  · induction messages with
    | nil => rfl
    | cons m ms ih =>
      rw [List.filterMap_cons, List.filter_cons]
      cases hmp : msgParts m with
      | nil => simpa [hmp] using ih
      | cons p ps => simpa [hmp] using ih

/-- C4: `executeToolCall` never throws (it is a total function into values):
a non-2xx HTTP status yields `{error: "HTTP <status> Error"}`, an envelope
carrying an error field yields `{error: <its message>}`, any other thrown
failure with message `m` yields `{error: m}`, and a successful response
yields the envelope's result value. -/
theorem executeToolCall_cases (status : Nat) (env : CallEnvelope) (m : String)
    (e : RPCError) (hm : m ≠ "") :
    executeToolCall (.response status (.parsed env)) =
      (if isOk status = false then errVal ("HTTP " ++ toString status ++ " Error")
       else match env.error with
            | some err => errVal err.message
            | none => env.result)
    ∧ executeToolCall (.thrown m) = errVal m
    ∧ executeToolCall (.response status (.parseThrow m)) =
        (if isOk status = false then errVal ("HTTP " ++ toString status ++ " Error")
         else errVal m)
    ∧ (env.error = some e →
        executeToolCall (.response status (.parsed env)) =
          (if isOk status = false then errVal ("HTTP " ++ toString status ++ " Error")
           else errVal e.message))
    ∧ (env.error = none → isOk status = true →
        executeToolCall (.response status (.parsed env)) = env.result) := by
  refine ⟨?_, ?_, ?_, ?_, ?_⟩
  · by_cases hok : isOk status = false
    · simp [executeToolCall, executeToolCallTry, hok]
    · cases henv : env.error <;>
        simp [executeToolCall, executeToolCallTry, hok, henv]
  · simp [executeToolCall, executeToolCallTry, jsMessage, hm]
  · by_cases hok : isOk status = false
    · simp [executeToolCall, executeToolCallTry, hok]
    · simp [executeToolCall, executeToolCallTry, hok, jsMessage, hm]
  · intro he
    by_cases hok : isOk status = false
    · simp [executeToolCall, executeToolCallTry, hok]
    · simp [executeToolCall, executeToolCallTry, hok, he]
  · intro he hok
    simp [executeToolCall, executeToolCallTry, hok, he]

theorem executeToolCall_cases_witness :
    executeToolCall (.thrown "fetch failed") = errVal "fetch failed" :=
  (executeToolCall_cases 500 ⟨none, Json.null⟩ "fetch failed" ⟨0, "x"⟩
    (by decide)).2.1

/-- C8: for every 2xx JSON-RPC `tools/list` response whose envelope carries
no error field (and hence, per JSON-RPC 2.0, carries a result), an absent
`result.tools` is treated as an empty tool list: `connectToServer` returns
`.ok []` rather than raising. -/
theorem connectToServer_lenient (status : Nat) (r : ListResult)
    (hok : isOk status = true) (ht : r.tools = none) :
    connectToServer (.response status (.parsed ⟨none, some r⟩)) = .ok [] := by
  simp [connectToServer, hok, ht]

theorem connectToServer_lenient_witness :
    connectToServer (.response 200 (.parsed ⟨none, some ⟨none⟩⟩)) = .ok [] :=
  connectToServer_lenient 200 ⟨none⟩ (by decide) rfl

theorem lookup_mapSet (m : List (String × FunctionCall)) (k n : String)
    (v : FunctionCall) :
    (mapSet m k v).lookup n = if n = k then some v else m.lookup n := by
  induction m with
  | nil =>
    by_cases h : n = k
    · subst h
      simp [mapSet, List.lookup]
    · have hb : (n == k) = false := beq_eq_false_iff_ne.mpr h
      simp [mapSet, List.lookup, hb, h]
  | cons hd tl ih =>
    obtain ⟨k₀, v₀⟩ := hd
    by_cases hk : k₀ = k
    · subst hk
      by_cases hn : n = k₀
      · subst hn
        simp [mapSet, List.lookup]
      · have hb : (n == k₀) = false := beq_eq_false_iff_ne.mpr hn
        simp [mapSet, List.lookup, hb, hn]
    · by_cases hn : n = k₀
      · have hb : (n == k₀) = true := beq_iff_eq.mpr hn
        have hnk : ¬n = k := fun hc => hk (hn ▸ hc)
        simp [mapSet, hk, List.lookup, hb, hnk]
      · have hb : (n == k₀) = false := beq_eq_false_iff_ne.mpr hn
        simp [mapSet, hk, List.lookup, hb, ih]

theorem mapSet_ne_nil (m : List (String × FunctionCall)) (k : String)
    (v : FunctionCall) : mapSet m k v ≠ [] := by
  cases m with
  | nil => simp [mapSet]
  | cons hd tl =>
    obtain ⟨k₀, v₀⟩ := hd
    by_cases h : k₀ = k <;> simp [mapSet, h]

theorem lastNamed_append (n : String) (xs ys : List FunctionCall) :
    lastNamed n (xs ++ ys)
      = match lastNamed n ys with
        | some v => some v
        | none => lastNamed n xs := by
  induction xs with
  | nil => cases h : lastNamed n ys <;> simp [lastNamed, h]
  | cons fc rest ih =>
    rw [List.cons_append]
    rw [lastNamed, ih, lastNamed]
    cases lastNamed n ys <;> cases lastNamed n rest <;> simp

theorem insState_lookup (fcs : List FunctionCall) (st : StreamState)
    (n : String) :
    (insState st fcs).toolCallsMap.lookup n
      = match lastNamed n fcs with
        | some v => some v
        | none => st.toolCallsMap.lookup n := by
  induction fcs generalizing st with
  | nil => simp [insState, lastNamed]
  | cons fc rest ih =>
    rw [insState, List.foldl_cons]
    rw [show ∀ s l, List.foldl
        (fun s fc => { s with toolCallsMap := mapSet s.toolCallsMap fc.name fc,
                              hasToolCalls := true }) s l = insState s l
      from fun _ _ => rfl]
    rw [ih, lastNamed]
    cases lastNamed n rest with
    | some v => rfl
    | none =>
      show List.lookup n (mapSet st.toolCallsMap fc.name fc) = _
      rw [lookup_mapSet]
      by_cases h : n = fc.name
      · simp [h]
      · have h' : ¬fc.name = n := fun hc => h hc.symm
        simp [h, h']

theorem insState_text (fcs : List FunctionCall) (st : StreamState) :
    (insState st fcs).bufferText = st.bufferText
      ∧ (insState st fcs).emissions = st.emissions := by
  induction fcs generalizing st with
  | nil => exact ⟨rfl, rfl⟩
  | cons fc rest ih => exact ih _

theorem insState_flag (fcs : List FunctionCall) (st : StreamState) :
    (insState st fcs).hasToolCalls = (st.hasToolCalls || !fcs.isEmpty) := by
  induction fcs generalizing st with
  | nil => simp [insState]
  | cons fc rest ih =>
    rw [insState, List.foldl_cons]
    rw [show ∀ s l, List.foldl
        (fun s fc => { s with toolCallsMap := mapSet s.toolCallsMap fc.name fc,
                              hasToolCalls := true }) s l = insState s l
      from fun _ _ => rfl]
    rw [ih]
    simp

theorem insState_map_nil (fcs : List FunctionCall) (st : StreamState) :
    ((insState st fcs).toolCallsMap = []
      ↔ st.toolCallsMap = [] ∧ fcs = []) := by
  induction fcs generalizing st with
  | nil => simp [insState]
  | cons fc rest ih =>
    rw [insState, List.foldl_cons]
    rw [show ∀ s l, List.foldl
        (fun s fc => { s with toolCallsMap := mapSet s.toolCallsMap fc.name fc,
                              hasToolCalls := true }) s l = insState s l
      from fun _ _ => rfl]
    rw [ih]
    simp only [List.cons_ne_nil, and_false, iff_false]
    intro ⟨hmap, _⟩
    exact mapSet_ne_nil st.toolCallsMap fc.name fc hmap

theorem processChunk_lookup (st : StreamState) (c : Chunk) (n : String) :
    (processChunk st c).toolCallsMap.lookup n
      = match lastNamed n c.functionCalls with
        | some v => some v
        | none => st.toolCallsMap.lookup n := by
  unfold processChunk
  rw [insState_lookup]
  by_cases h : c.text = "" <;> simp [h]

theorem processChunk_flag (st : StreamState) (c : Chunk) :
    (processChunk st c).hasToolCalls
      = (st.hasToolCalls || !c.functionCalls.isEmpty) := by
  unfold processChunk
  rw [insState_flag]
  by_cases h : c.text = "" <;> simp [h]

theorem processChunk_map_nil (st : StreamState) (c : Chunk) :
    ((processChunk st c).toolCallsMap = []
      ↔ st.toolCallsMap = [] ∧ c.functionCalls = []) := by
  unfold processChunk
  rw [insState_map_nil]
  by_cases h : c.text = "" <;> simp [h]

theorem processChunk_text (st : StreamState) (c : Chunk) :
    (processChunk st c).bufferText
        = (if c.text = "" then st.bufferText else st.bufferText ++ c.text)
      ∧ (processChunk st c).emissions
        = (if c.text = "" then st.emissions
           else st.emissions ++ [st.bufferText ++ c.text]) := by
  unfold processChunk
  constructor
  · rw [(insState_text c.functionCalls _).1]
    by_cases h : c.text = "" <;> simp [h]
  · rw [(insState_text c.functionCalls _).2]
    by_cases h : c.text = "" <;> simp [h]

theorem foldStream_lookup (chunks : List Chunk) (st : StreamState)
    (n : String) :
    (chunks.foldl processChunk st).toolCallsMap.lookup n
      = match lastNamed n (emittedCalls chunks) with
        | some v => some v
        | none => st.toolCallsMap.lookup n := by
  induction chunks generalizing st with
  | nil => simp [emittedCalls, lastNamed]
  | cons c rest ih =>
    rw [List.foldl_cons, ih]
    rw [show emittedCalls (c :: rest) = c.functionCalls ++ emittedCalls rest
      from rfl]
    rw [lastNamed_append]
    cases lastNamed n (emittedCalls rest) with
    | some v => rfl
    | none => rw [processChunk_lookup]

theorem foldStream_flag (chunks : List Chunk) (st : StreamState) :
    ((chunks.foldl processChunk st).hasToolCalls = true
      ↔ (st.hasToolCalls = true ∨ emittedCalls chunks ≠ [])) := by
  induction chunks generalizing st with
  | nil => simp [emittedCalls]
  | cons c rest ih =>
    rw [List.foldl_cons, ih, processChunk_flag]
    rw [show emittedCalls (c :: rest) = c.functionCalls ++ emittedCalls rest
      from rfl]
    simp [not_and_or, or_assoc]
    tauto

theorem foldStream_map_nil (chunks : List Chunk) (st : StreamState) :
    ((chunks.foldl processChunk st).toolCallsMap = []
      ↔ st.toolCallsMap = [] ∧ emittedCalls chunks = []) := by
  induction chunks generalizing st with
  | nil => simp [emittedCalls]
  | cons c rest ih =>
    rw [List.foldl_cons, ih, processChunk_map_nil]
    rw [show emittedCalls (c :: rest) = c.functionCalls ++ emittedCalls rest
      from rfl]
    simp only [List.append_eq_nil]
    tauto

theorem foldStream_text (chunks : List Chunk) (st : StreamState) :
    (chunks.foldl processChunk st).bufferText
        = st.bufferText ++ textConcat chunks
      ∧ (chunks.foldl processChunk st).emissions
        = st.emissions ++ textAccum chunks st.bufferText := by
  induction chunks generalizing st with
  | nil => simp [textConcat, textAccum]
  | cons c rest ih =>
    rw [List.foldl_cons]
    rcases ih (processChunk st c) with ⟨hb, he⟩
    rcases processChunk_text st c with ⟨pb, pe⟩
    constructor
    · rw [hb, pb, textConcat]
      by_cases h : c.text = ""
      · simp [h]
      · simp [h, String.append_assoc]
    · rw [he, pe, pb, textAccum]
      by_cases h : c.text = ""
      · simp [h]
      · simp [h, List.append_assoc]

/-- C5: during one inference stream, each streamed function-call fragment
overwrites any earlier fragment under the same tool name: at stream end the
name-keyed map holds, for each name, exactly the last-emitted fragment, and
the turn is classified as a tool-call turn (`hasToolCalls`) iff that map is
non-empty. -/
theorem stream_last_write_wins (chunks : List Chunk) (n : String) :
    (runStream chunks).toolCallsMap.lookup n
        = lastNamed n (emittedCalls chunks)
      ∧ ((runStream chunks).hasToolCalls = true
          ↔ (runStream chunks).toolCallsMap ≠ []) := by
  constructor
  · rw [runStream, foldStream_lookup]
    cases lastNamed n (emittedCalls chunks) <;> simp [initStream]
  · rw [runStream, foldStream_flag]
    simp only [ne_eq]
    rw [foldStream_map_nil chunks initStream]
    simp [initStream]

/-- C6: streamed visible text is accumulated by concatenation and never reset
mid-stream; on every increment carrying text the progress callback fires with
the full accumulated text so far. In particular feeding `["Hel", "lo"]`
yields the callbacks `"Hel"` then `"Hello"` and a final text of `"Hello"`. -/
theorem stream_text_accumulation (chunks : List Chunk) :
    (runStream chunks).bufferText = textConcat chunks
      ∧ (runStream chunks).emissions = textAccum chunks ""
      ∧ (runStream [⟨"Hel", []⟩, ⟨"lo", []⟩]).emissions = ["Hel", "Hello"]
      ∧ (runStream [⟨"Hel", []⟩, ⟨"lo", []⟩]).bufferText = "Hello" := by
  refine ⟨?_, ?_, rfl, rfl⟩
  · rw [runStream]
    rcases foldStream_text chunks initStream with ⟨hb, _⟩
    rw [hb]
    simp [initStream]
  · rw [runStream]
    rcases foldStream_text chunks initStream with ⟨_, he⟩
    rw [he]
    simp [initStream]

theorem connectedDecls_nil_of_none (servers : List MCPServer)
    (h : ∀ s ∈ servers, s.status ≠ ServerStatus.connected) :
    connectedDecls servers = [] := by
  induction servers with
  | nil => rfl
  | cons s rest ih =>
    have hstep : connectedDecls (s :: rest)
        = (if s.status = ServerStatus.connected then s.tools.map (declOf s)
           else []) ++ connectedDecls rest := rfl
    rw [hstep, if_neg (h s (by simp)), ih fun x hx => h x (by simp [hx])]
    rfl

theorem connectedDecls_filter (servers : List MCPServer) :
    connectedDecls servers
      = flatDecls (servers.filter fun s =>
          decide (s.status = ServerStatus.connected)) := by
  induction servers with
  | nil => rfl
  | cons s rest ih =>
    have hstep : connectedDecls (s :: rest)
        = (if s.status = ServerStatus.connected then s.tools.map (declOf s)
           else []) ++ connectedDecls rest := rfl
    have hflat : ∀ (l : MCPServer) ls,
        flatDecls (l :: ls) = l.tools.map (declOf l) ++ flatDecls ls :=
      fun _ _ => rfl
    rw [hstep, List.filter_cons]
    by_cases h : s.status = ServerStatus.connected
    · simp [h, hflat, ih]
    · simp [h, ih]

/-- C7: when no server is in the connected state the tool-declaration field
of the inference request is `undefined` rather than an empty array; the
declaration list is always the flattening of the connected servers' tool
lists only (servers in other states contribute nothing), and a declaration's
description defaults to `Tool from <server name>` when the tool carries
none. -/
theorem toolsConfig_spec (servers : List MCPServer) :
    ((∀ s ∈ servers, s.status ≠ ServerStatus.connected) →
        toolsConfig servers = none)
      ∧ connectedDecls servers
          = flatDecls (servers.filter fun s =>
              decide (s.status = ServerStatus.connected))
      ∧ (∀ (s : MCPServer) (t : MCPTool), t.description = none →
          (declOf s t).description = "Tool from " ++ s.name) := by
  refine ⟨?_, connectedDecls_filter servers, ?_⟩
  · intro h
    have hnil := connectedDecls_nil_of_none servers h
    simp [toolsConfig, formatTools, hnil]
  · intro s t h
    simp [declOf, h]

theorem toolsConfig_spec_witness : toolsConfig [errStatusServer] = none :=
  (toolsConfig_spec [errStatusServer]).1 (by
    intro s hs
    rw [List.mem_singleton] at hs
    subst hs
    decide)

/-- C1 counterexample: one server in `error` status advertising tool `X` —
no server at all is connected, so the claim demands the synthesized
not-found value and no network call; yet the loop performs a network call to
that server. -/
theorem dispatch_status_counterexample :
    (streamChatResponse ⟨some "k", none⟩ modelOneCall [errStatusServer]
        execMark [] []).netCalls
        = [⟨"http://err.example", "X", Json.null⟩]
      ∧ ∀ s ∈ [errStatusServer], s.status ≠ ServerStatus.connected := by
  constructor
  · rfl
  · intro s hs
    rw [List.mem_singleton] at hs
    subst hs
    decide

/-- C1 amended: a pending tool call is dispatched to the first server in the
server list — regardless of connection status — whose advertised tool list
contains the call's name, producing one network call to that server's url;
when no listed server advertises the name, the loop produces
`{error: "Tool <name> not found in connected servers."}` as the call's
result without any network call. -/
theorem dispatch_first_match (pre post : List MCPServer) (s : MCPServer)
    (execTool : String → String → Json → Json) (call : FunctionCall)
    (h1 : ∀ x ∈ pre, (x.tools.any fun t => t.name == call.name) = false)
    (h2 : (s.tools.any fun t => t.name == call.name) = true) :
    resolveToolCall (pre ++ s :: post) execTool call
        = (execTool s.url call.name call.args,
           [⟨s.url, call.name, call.args⟩])
      ∧ ∀ servers : List MCPServer,
          (∀ x ∈ servers, (x.tools.any fun t => t.name == call.name) = false) →
          resolveToolCall servers execTool call
            = (errVal ("Tool " ++ call.name
                ++ " not found in connected servers."), []) := by
  constructor
  · have hfind : dispatchServer (pre ++ s :: post) call.name = some s := by
      unfold dispatchServer
      induction pre with
      | nil => exact List.find?_cons_of_pos _ h2
      | cons x rest ih =>
        rw [List.cons_append,
          List.find?_cons_of_neg _ (by simp [h1 x (by simp)])]
        exact ih fun y hy => h1 y (by simp [hy])
    unfold resolveToolCall
    rw [hfind]
  · intro servers h
    have hfind : dispatchServer servers call.name = none := by
      unfold dispatchServer
      rw [List.find?_eq_none]
      intro x hx
      simp [h x hx]
    unfold resolveToolCall
    rw [hfind]

theorem dispatch_first_match_witness :
    resolveToolCall [serverA, serverB] execMark ⟨"X", Json.null⟩
      = (Json.str "ran", [⟨"http://a.example", "X", Json.null⟩]) :=
  (dispatch_first_match [] [serverB] serverA execMark ⟨"X", Json.null⟩
    (by intro x hx; cases hx) (by decide)).1

theorem loopIter_succ (model : List Content → List Chunk)
    (servers : List MCPServer) (execTool : String → String → Json → Json)
    (n : Nat) (contents : List Content) (t : String)
    (h : (runStream (model contents)).hasToolCalls = true) :
    loopIter model servers execTool (n + 1) contents t
      = ⟨(loopIter model servers execTool n
            (nextContents model servers execTool contents)
            (runStream (model contents)).bufferText).result,
         (loopIter model servers execTool n
            (nextContents model servers execTool contents)
            (runStream (model contents)).bufferText).inferenceCalls + 1,
         (executeCalls servers execTool
            ((runStream (model contents)).toolCallsMap.map Prod.snd)).2
           ++ (loopIter model servers execTool n
                (nextContents model servers execTool contents)
                (runStream (model contents)).bufferText).netCalls⟩ := by
  rw [loopIter]
  simp [h, nextContents]

theorem loopIter_all_toolcalls (model : List Content → List Chunk)
    (servers : List MCPServer) (execTool : String → String → Json → Json)
    (hm : ∀ contents, (runStream (model contents)).hasToolCalls = true)
    (n : Nat) :
    ∀ (contents : List Content) (t : String),
      (loopIter model servers execTool (n + 1) contents t).inferenceCalls
          = n + 1
        ∧ (loopIter model servers execTool (n + 1) contents t).result
            = .ok (runStream (model
                ((nextContents model servers execTool)^[n] contents))).bufferText := by
  induction n with
  | zero =>
    intro contents t
    rw [loopIter_succ model servers execTool 0 contents t (hm contents)]
    exact ⟨rfl, rfl⟩
  | succ n ih =>
    intro contents t
    rw [loopIter_succ model servers execTool (n + 1) contents t (hm contents)]
    rcases ih (nextContents model servers execTool contents)
      (runStream (model contents)).bufferText with ⟨h1, h2⟩
    refine ⟨by rw [h1], ?_⟩
    rw [h2, Function.iterate_succ_apply]

/-- C3: for a model that returns a tool call on every turn, the orchestration
loop performs exactly 5 inference calls and returns (without raising) the
text accumulated in the final, fifth iteration. -/
theorem loop_five_calls (env : KeyEnv) (model : List Content → List Chunk)
    (servers : List MCPServer) (execTool : String → String → Json → Json)
    (messages : List Message) (contextFiles : List Attachment) (key : String)
    (hk : getApiKey env = some key)
    (hm : ∀ contents, (runStream (model contents)).hasToolCalls = true) :
    (streamChatResponse env model servers execTool messages
        contextFiles).inferenceCalls = 5
      ∧ (streamChatResponse env model servers execTool messages
          contextFiles).result
          = .ok (runStream (model ((nextContents model servers execTool)^[4]
              (formatHistory messages contextFiles)))).bufferText := by
  have h := loopIter_all_toolcalls model servers execTool hm 4
    (formatHistory messages contextFiles) ""
  simpa [streamChatResponse, hk] using h

theorem loop_five_calls_witness :
    (streamChatResponse ⟨some "k", none⟩ modelAlwaysCall [] execMark []
        []).inferenceCalls = 5
      ∧ (streamChatResponse ⟨some "k", none⟩ modelAlwaysCall [] execMark []
          []).result
          = .ok (runStream (modelAlwaysCall
              ((nextContents modelAlwaysCall [] execMark)^[4]
                (formatHistory [] [])))).bufferText :=
  loop_five_calls ⟨some "k", none⟩ modelAlwaysCall [] execMark [] [] "k"
    (by simp [getApiKey, truthyStr]) (fun _ => rfl)

/-- C10: when neither the custom local-storage key nor the environment key
is present (or either is the falsy empty string), `streamChatResponse`
throws the "API Key is missing" error having performed zero inference calls
and zero network tool calls — `createClient()` runs before history
formatting and before the loop. -/
theorem missing_key_throws (env : KeyEnv) (model : List Content → List Chunk)
    (servers : List MCPServer) (execTool : String → String → Json → Json)
    (messages : List Message) (contextFiles : List Attachment)
    (hc : env.customKey = none ∨ env.customKey = some "")
    (he : env.envKey = none ∨ env.envKey = some "") :
    streamChatResponse env model servers execTool messages contextFiles
      = ⟨.error apiKeyMissingMsg, 0, []⟩ := by
  rcases hc with h1 | h1 <;> rcases he with h2 | h2 <;>
    simp [streamChatResponse, getApiKey, truthyStr, h1, h2]

theorem missing_key_throws_witness :
    streamChatResponse ⟨none, none⟩ modelAlwaysCall [] execMark [] []
      = ⟨.error apiKeyMissingMsg, 0, []⟩ :=
  missing_key_throws ⟨none, none⟩ modelAlwaysCall [] execMark [] []
    (Or.inl rfl) (Or.inl rfl)

set_option maxRecDepth 8192 in
/-- C9 counterexample: appending a 31-character user message to an empty
session yields a title ending in the three-character marker `...`, not the
single-character ellipsis `…` the claim states. -/
theorem title_marker_counterexample :
    (updateSessionMessages 1 emptySession [msg31]).title
        = "aaaaaaaaaaaaaaaaaaaaaaaaaaaaaa..."
      ∧ (updateSessionMessages 1 emptySession [msg31]).title
        ≠ "aaaaaaaaaaaaaaaaaaaaaaaaaaaaaa…" := by
  constructor
  · rfl
  · decide

/-- C9 amended: the title is derived exactly once, when the first message is
appended to an empty session and it is a user message: text longer than 30
characters yields the first 30 characters followed by the three-dot marker
`...`, shorter text is taken unchanged; any update of a session that already
has messages leaves the title untouched. -/
theorem title_derivation (now : Nat) (s : ChatSession) (m : Message)
    (rest newMessages : List Message) :
    (s.messages = [] → m.role = Role.user →
        (updateSessionMessages now s (m :: rest)).title
          = m.text.take 30
            ++ (if m.text.length > 30 then "..." else ""))
      ∧ (s.messages ≠ [] →
          (updateSessionMessages now s newMessages).title = s.title) := by
  constructor
  · intro h1 h2
    simp [updateSessionMessages, deriveTitle, h1, h2]
  · intro h1
    cases hm : s.messages with
    | nil => exact absurd hm h1
    | cons a b =>
      cases newMessages <;> simp [updateSessionMessages, deriveTitle, hm]

set_option maxRecDepth 8192 in
theorem title_derivation_witness :
    (updateSessionMessages 1 emptySession [msgHi]).title = "hi" := by
  have h := (title_derivation 1 emptySession msgHi [] []).1 rfl rfl
  rw [h]
  rfl
